import Mathlib

/-!
Shallow embedding of `tinykv` (a tiny SQLite-backed key-value store) and
proofs of its specified properties.

Modelling choices:
* Python values supported by the store are a sum type `Value`.  Python
  floats are modelled as the exact rationals they denote (every finite
  IEEE-754 double is a rational); structured objects handled by the
  pickle fallback are abstracted by an identity (`pickle.dumps` /
  `pickle.loads` is modelled as an injective wrap/unwrap pair).
* The serialized payload is a sum type `Payload` distinguishing the
  dynamic type of the second component Python passes around (`None`,
  UTF-8 text bytes, raw bytes, int, float, pickle blob); the tag decides
  how it is re-interpreted, exactly as in the source.
* The SQLite table is a list of rows `(k, t, v)`; the `COLLATE NOCASE`
  primary key is modelled by comparing keys after folding the 26 ASCII
  upper-case letters, which is SQLite's NOCASE collation.
* Python's `float(data)` applied to an `int` rounds to the nearest
  IEEE-754 double (ties to even); this is modelled faithfully by
  `floatOfInt`, so precision loss beyond 2^53 is visible in the model.
* Fallible operations return `Except Err _`; `KeyError`, the
  `ValueError` raised by `_DType(row[0])` on an out-of-range tag, and
  dynamic-type mismatches are the error cases.
-/

deriving instance DecidableEq for Except

namespace TinyKV

/-- Native Python values supported by the store. -/
inductive Value where
  | none
  | str (s : String)
  | bytes (b : List Nat)
  | bool (b : Bool)
  | int (n : Int)
  | float (q : ℚ)
  | obj (o : Nat)
deriving DecidableEq

/-- The dynamic type of a serialized payload (second component of the
`(tag, data)` pair produced by `_serialize` and stored in column `v`). -/
inductive Payload where
  | utf8 (s : String)
  | raw (b : List Nat)
  | int (n : Int)
  | float (q : ℚ)
  | pickled (o : Nat)
deriving DecidableEq

/-- `class _DType(enum.IntEnum)`: the six type tags. -/
inductive DType where
  | NONE
  | STRING
  | BYTES
  | BOOL
  | NUMBER
  | PICKLE
deriving DecidableEq

/-- The integer value of each `_DType` member (`NONE = 1` … `PICKLE = 6`). -/
def DType.code : DType → Nat
  | .NONE => 1
  | .STRING => 2
  | .BYTES => 3
  | .BOOL => 4
  | .NUMBER => 5
  | .PICKLE => 6

/-- `_DType(n)`: converting a stored integer back to a tag.  Raises
`ValueError` (here: `Option.none`) when `n` is not the value of a member. -/
def DType.ofCode : Nat → Option DType
  | 1 => some .NONE
  | 2 => some .STRING
  | 3 => some .BYTES
  | 4 => some .BOOL
  | 5 => some .NUMBER
  | 6 => some .PICKLE
  | _ => Option.none

/-- Errors raised by the store layer itself. -/
inductive Err where
  | keyError (k : String)
  | valueError
  | typeError
deriving DecidableEq

/-- `TinyKV._serialize`: map a native value to a `(tag, data)` pair,
following the source's `isinstance` chain (note `bool` is checked before
`int`/`float`, which the separate constructors reflect). -/
def _serialize : Value → DType × Option Payload
  | .none => (.NONE, Option.none)
  | .str s => (.STRING, some (.utf8 s))
  | .bytes b => (.BYTES, some (.raw b))
  | .bool b => (.BOOL, some (.int (if b then 1 else 0)))
  | .int n => (.NUMBER, some (.int n))
  | .float q => (.NUMBER, some (.float q))
  | .obj o => (.PICKLE, some (.pickled o))

/-- Smallest `k` (searched upward with fuel) such that `a < 2 ^ 53 * 2 ^ k`. -/
def shiftAux : Nat → Nat → Nat → Nat
  | 0, _, k => k
  | fuel + 1, a, k => if a < 2 ^ 53 * 2 ^ k then k else shiftAux fuel a (k + 1)

/-- Python `float(n)` on an `int`: round to the nearest IEEE-754 double,
ties to even.  Exact for `|n| ≤ 2 ^ 53`; beyond that the low bits are
rounded away (the mantissa is 53 bits). -/
def floatOfInt (n : Int) : ℚ :=
  let a := n.natAbs
  if a ≤ 2 ^ 53 then Rat.ofInt n
  else
    let k := shiftAux 1100 a 0
    let q := a / 2 ^ k
    let r := a % 2 ^ k
    let q' := if 2 * r > 2 ^ k ∨ (2 * r = 2 ^ k ∧ q % 2 = 1) then q + 1 else q
    Rat.ofInt ((if n < 0 then -1 else 1) * (q' * 2 ^ k : ℕ))

/-- Python `float(data)` in `_unserialize`'s NUMBER branch: succeeds on
numeric payloads (the only ones the store ever writes under that tag). -/
def payloadToFloat : Payload → Option ℚ
  | .int n => some (floatOfInt n)
  | .float q => some q
  | _ => Option.none

/-- `TinyKV._unserialize`: re-interpret a `(tag, data)` pair as a native
value.  The NUMBER branch is `float(data)` followed by
`int(number) if number.is_integer() else number`; `is_integer` holds
exactly when the rational has denominator 1.  A payload whose dynamic
type does not fit the tag fails (Python would raise on the method call),
and a tag outside the enumeration never reaches this function (see
`decodeRow`). -/
def _unserialize : DType → Option Payload → Except Err Value
  | .NONE, _ => .ok .none
  | .STRING, some (.utf8 s) => .ok (.str s)
  | .BYTES, some (.raw b) => .ok (.bytes b)
  | .BOOL, some (.int n) => .ok (.bool (decide (n ≠ 0)))
  | .NUMBER, some p =>
    match payloadToFloat p with
    | some q => .ok (if q.den = 1 then .int q.num else .float q)
    | Option.none => .error .typeError
  | .PICKLE, some (.pickled o) => .ok (.obj o)
  | _, _ => .error .typeError

/-- A row of the `kv` table: `k TEXT COLLATE NOCASE, t TINYINT, v BLOB`. -/
structure Row where
  k : String
  t : Nat
  v : Option Payload
deriving DecidableEq

/-- The table contents. -/
abbrev Store := List Row

/-- SQLite's NOCASE collation folds exactly the 26 upper-case ASCII
letters to lower case before comparing. -/
def foldChar (c : Char) : Char :=
  if 'A' ≤ c ∧ c ≤ 'Z' then Char.ofNat (c.toNat + 32) else c

/-- Fold a key for NOCASE comparison. -/
def nocase (s : String) : String := String.mk (s.data.map foldChar)

/-- Key equality under the table's `COLLATE NOCASE` primary key. -/
def keyEq (a b : String) : Bool := nocase a == nocase b

/-- `SELECT t, v … WHERE k = ?`: the row whose key NOCASE-matches, if any. -/
def lookupRow (st : Store) (key : String) : Option Row :=
  st.find? (fun r => keyEq r.k key)

/-- Decoding a fetched row: `self._unserialize(_DType(row[0]), row[1])`.
`_DType(row[0])` raises `ValueError` when the stored tag is outside 1–6. -/
def decodeRow (r : Row) : Except Err Value :=
  match DType.ofCode r.t with
  | some dt => _unserialize dt r.v
  | Option.none => .error .valueError

/-- `TinyKV.set`: serialize and `INSERT OR REPLACE` keyed by the NOCASE
primary key (any conflicting row is replaced). -/
def set (st : Store) (key : String) (value : Value) : Store :=
  let s := _serialize value
  st.filter (fun r => !(keyEq r.k key)) ++ [⟨key, s.1.code, s.2⟩]

/-- `TinyKV.get`: fetch the row for `key`; if absent return the default
when one was supplied (the source's `Ellipsis` sentinel is modelled as
`Option.none`), else raise `KeyError`; if present, decode. -/
def get (st : Store) (key : String) (default : Option Value) : Except Err Value :=
  match lookupRow st key with
  | some r => decodeRow r
  | Option.none =>
    match default with
    | some d => .ok d
    | Option.none => .error (.keyError key)

/-- Decode a fetched row into a `(stored key, value)` item of the result
dict: `{r[0]: self._unserialize(_DType(r[1]), r[2]) for r in rows}`. -/
def decodeRows : List Row → Except Err (List (String × Value))
  | [] => .ok []
  | r :: rest => do
    let v ← decodeRow r
    let d ← decodeRows rest
    .ok ((r.k, v) :: d)

/-- `TinyKV.get_many`: `SELECT k, t, v … WHERE k IN (keys)` (the IN
comparison uses the column's NOCASE collation; an empty list matches no
row), then build the dict keyed by the stored `k`. -/
def get_many (st : Store) (keys : List String) : Except Err (List (String × Value)) :=
  decodeRows (st.filter (fun r => keys.any (fun k => keyEq r.k k)))

/-- `TinyKV.remove`: `DELETE … WHERE k = ?`; raises `KeyError` when the
statement deleted no row (`cur.rowcount == 0`). -/
def remove (st : Store) (key : String) : Except Err Store :=
  let st' := st.filter (fun r => !(keyEq r.k key))
  if st'.length = st.length then .error (.keyError key) else .ok st'

/-- `TinyKV.remove_many`: `DELETE … WHERE k IN (keys)`; never raises,
whatever the row count. -/
def remove_many (st : Store) (keys : List String) : Store :=
  st.filter (fun r => !(keys.any (fun k => keyEq r.k k)))

/-- The numeric value of a Python number (`bool` is a numeric subtype:
`True == 1`), used to model Python `==`. -/
def numVal : Value → Option ℚ
  | .bool b => some (Rat.ofInt (if b then 1 else 0))
  | .int n => some (Rat.ofInt n)
  | .float q => some q
  | _ => Option.none

/-- Python `==` on supported values: numbers (bool/int/float) compare by
numeric value, everything else structurally. -/
def pyEq (a b : Value) : Bool :=
  match numVal a, numVal b with
  | some x, some y => decide (x = y)
  | _, _ => a == b

/-- Values whose numeric payload survives `float(data)` exactly: every
non-integer value, and integers of magnitude at most `2 ^ 53` (the
acknowledged precision-loss boundary). -/
def valueOK : Value → Prop
  | .int n => n.natAbs ≤ 2 ^ 53
  | _ => True

instance : DecidablePred valueOK
  | .none => .isTrue trivial
  | .str _ => .isTrue trivial
  | .bytes _ => .isTrue trivial
  | .bool _ => .isTrue trivial
  | .int n => inferInstanceAs (Decidable (n.natAbs ≤ 2 ^ 53))
  | .float _ => .isTrue trivial
  | .obj _ => .isTrue trivial

/-! ### Helper lemmas -/

theorem keyEq_refl (a : String) : keyEq a a = true := by
  simp [keyEq]

theorem nocase_eq_of_keyEq {a b : String} (h : keyEq a b = true) : nocase a = nocase b := by
  simpa [keyEq] using h

theorem keyEq_congr {k1 k2 : String} (h : keyEq k1 k2 = true) (a : String) :
    keyEq a k1 = keyEq a k2 := by
  simp [keyEq, nocase_eq_of_keyEq h]

theorem floatOfInt_small {n : Int} (h : n.natAbs ≤ 2 ^ 53) : floatOfInt n = Rat.ofInt n := by
  unfold floatOfInt
  exact if_pos h

theorem ofCode_code (dt : DType) : DType.ofCode dt.code = some dt := by
  cases dt <;> rfl

theorem pyEq_refl (v : Value) : pyEq v v = true := by
  cases v <;> simp [pyEq, numVal]

/-- The codec round-trip, shared by several properties: `_unserialize`
inverts `_serialize` up to Python `==`, for every value whose numeric
payload survives `float(data)` exactly. -/
theorem unserialize_serialize {v : Value} (h : valueOK v) :
    ∃ w, _unserialize (_serialize v).1 (_serialize v).2 = .ok w ∧ pyEq w v = true := by
  cases v with
  | none => exact ⟨.none, rfl, rfl⟩
  | str s => exact ⟨.str s, rfl, pyEq_refl _⟩
  | bytes b => exact ⟨.bytes b, rfl, pyEq_refl _⟩
  | bool b => cases b <;> exact ⟨_, rfl, by decide⟩
  | int n =>
    refine ⟨.int n, ?_, pyEq_refl _⟩
    simp [_serialize, _unserialize, payloadToFloat, floatOfInt_small h]
  | float q =>
    by_cases hd : q.den = 1
    · refine ⟨.int q.num, ?_, ?_⟩
      · simp [_serialize, _unserialize, payloadToFloat, hd]
      · simp [pyEq, numVal, Rat.coe_int_num_of_den_eq_one hd]
    · refine ⟨.float q, ?_, pyEq_refl _⟩
      simp [_serialize, _unserialize, payloadToFloat, hd]
  | obj o => exact ⟨.obj o, rfl, pyEq_refl _⟩

theorem filter_not_filter (p : α → Bool) (l : List α) :
    (l.filter fun a => !(p a)).filter p = [] := by
  induction l with
  | nil => rfl
  | cons a t ih => cases h : p a <;> simp [h, ih]

theorem lookupRow_congr {k1 k2 : String} (h : keyEq k1 k2 = true) (st : Store) :
    lookupRow st k1 = lookupRow st k2 := by
  unfold lookupRow
  congr 1
  funext r
  exact keyEq_congr h r.k

theorem lookupRow_set_self (st : Store) (key k2 : String) (v : Value)
    (h : keyEq key k2 = true) :
    lookupRow (set st key v) k2 = some ⟨key, (_serialize v).1.code, (_serialize v).2⟩ := by
  unfold lookupRow set
  rw [List.find?_append]
  have h1 : (st.filter fun r => !(keyEq r.k key)).find? (fun r => keyEq r.k k2)
      = Option.none := by
    rw [List.find?_eq_none]
    intro r hr
    have h2 := (List.mem_filter.mp hr).2
    rw [← keyEq_congr h r.k]
    simpa using h2
  rw [h1]
  simp [List.find?, h]

theorem decodeRow_set (key : String) (v : Value) :
    decodeRow ⟨key, (_serialize v).1.code, (_serialize v).2⟩
      = _unserialize (_serialize v).1 (_serialize v).2 := by
  unfold decodeRow
  rw [ofCode_code]

theorem set_filter_self (st : Store) (key : String) (v : Value) :
    ((set st key v).filter fun r => keyEq r.k key).length = 1 := by
  unfold set
  rw [List.filter_append, filter_not_filter (fun r => keyEq r.k key) st]
  simp [keyEq_refl]

theorem decodeRows_ok {l : List Row} (h : ∀ r ∈ l, ∃ w, decodeRow r = .ok w) :
    ∃ d, decodeRows l = .ok d ∧
      ∀ p, p ∈ d ↔ ∃ r ∈ l, r.k = p.1 ∧ decodeRow r = .ok p.2 := by
  induction l with
  | nil => exact ⟨[], rfl, by simp⟩
  | cons a t ih =>
    obtain ⟨w, hw⟩ := h a (List.mem_cons_self a t)
    obtain ⟨d, hd, hiff⟩ := ih fun r hr => h r (List.mem_cons_of_mem _ hr)
    refine ⟨(a.k, w) :: d, ?_, ?_⟩
    · simp only [decodeRows, hw, hd]
      rfl
    · rintro ⟨p1, p2⟩
      simp only [List.mem_cons, hiff, Prod.mk.injEq]
      constructor
      · rintro (⟨rfl, rfl⟩ | ⟨r, hr, h1, h2⟩)
        · exact ⟨a, Or.inl rfl, rfl, hw⟩
        · exact ⟨r, Or.inr hr, h1, h2⟩
      · rintro ⟨r, (rfl | hr), h1, h2⟩
        · rw [hw] at h2
          cases h2
          exact Or.inl ⟨h1.symm, rfl⟩
        · exact Or.inr ⟨r, hr, h1, h2⟩

theorem decodeRows_mem {l : List Row} {d : List (String × Value)}
    (h : decodeRows l = .ok d) :
    ∀ p ∈ d, ∃ r ∈ l, r.k = p.1 ∧ decodeRow r = .ok p.2 := by
  induction l generalizing d with
  | nil =>
    cases h
    simp
  | cons a t ih =>
    cases ha : decodeRow a with
    | error e =>
      simp only [decodeRows, ha] at h
      cases h
    | ok v =>
      cases ht : decodeRows t with
      | error e =>
        simp only [decodeRows, ha, ht] at h
        cases h
      | ok d' =>
        simp only [decodeRows, ha, ht] at h
        cases h
        rintro ⟨p1, p2⟩ hp
        rcases List.mem_cons.mp hp with heq | hmem
        · cases heq
          exact ⟨a, List.mem_cons_self a t, rfl, ha⟩
        · obtain ⟨r, hr, h1, h2⟩ := ih ht _ hmem
          exact ⟨r, List.mem_cons_of_mem _ hr, h1, h2⟩

theorem ofCode_none {n : Nat} (h : n < 1 ∨ 6 < n) : DType.ofCode n = Option.none := by
  rcases h with h | h
  · obtain rfl : n = 0 := by omega
    rfl
  · obtain ⟨m, rfl⟩ : ∃ m, n = m + 7 := ⟨n - 7, by omega⟩
    rfl

/-! ### The claims -/

/-- C1: for every supported native value `v` (none, string, bytes, bool,
integer, float, structured object), `_unserialize` applied to the
`(tag, payload)` pair produced by `_serialize v` succeeds and returns a
value Python-`==`-equal to `v`; the `valueOK` hypothesis excludes exactly
the acknowledged precision loss on integers of magnitude beyond `2 ^ 53`. -/
theorem C1_roundtrip (v : Value) (h : valueOK v) :
    ∃ w, _unserialize (_serialize v).1 (_serialize v).2 = .ok w ∧ pyEq w v = true :=
  unserialize_serialize h

/-- C1 witness: the round-trip at the concrete value `3`. -/
theorem C1_roundtrip_witness :
    valueOK (Value.int 3) ∧
    ∃ w, _unserialize (_serialize (Value.int 3)).1 (_serialize (Value.int 3)).2 = .ok w ∧
      pyEq w (Value.int 3) = true :=
  ⟨by decide, C1_roundtrip (Value.int 3) (by decide)⟩

/-- C2: for every key `k` not present in the store and every value `D`
(including null), `get k (some D)` returns `D`, and `get k` with no
default supplied fails with `KeyError k`. -/
theorem C2_get_default (st : Store) (k : String) (D : Value)
    (h : lookupRow st k = Option.none) :
    get st k (some D) = .ok D ∧ get st k Option.none = .error (.keyError k) := by
  constructor <;> simp [get, h]

/-- C2 witness: the empty store with key `"a"` and default null. -/
theorem C2_get_default_witness :
    lookupRow [] "a" = Option.none ∧
    (get [] "a" (some .none) = .ok .none ∧
      get [] "a" Option.none = .error (.keyError "a")) :=
  ⟨rfl, C2_get_default [] "a" .none rfl⟩

/-- C3: on a store whose rows all decode, `get_many keys` succeeds and
returns exactly the entries of the store matched (under the NOCASE key
comparison) by some requested key, each mapped to its decoded value;
absent keys contribute nothing and never cause an error, and `get_many`
of an empty sequence of keys returns the empty mapping. -/
theorem C3_get_many (st : Store) (keys : List String)
    (h : ∀ r ∈ st, ∃ w, decodeRow r = .ok w) :
    (∃ d, get_many st keys = .ok d ∧
      ∀ p, p ∈ d ↔ ∃ r ∈ st, (keys.any fun k => keyEq r.k k) = true
        ∧ r.k = p.1 ∧ decodeRow r = .ok p.2) ∧
    get_many st [] = .ok [] := by
  constructor
  · obtain ⟨d, hd, hiff⟩ :=
      decodeRows_ok (l := st.filter fun r => keys.any fun k => keyEq r.k k)
        (fun r hr => h r (List.mem_filter.mp hr).1)
    refine ⟨d, hd, fun p => ?_⟩
    rw [hiff p]
    constructor
    · rintro ⟨r, hr, h1, h2⟩
      obtain ⟨hmem, hany⟩ := List.mem_filter.mp hr
      exact ⟨r, hmem, hany, h1, h2⟩
    · rintro ⟨r, hmem, hany, h1, h2⟩
      exact ⟨r, List.mem_filter.mpr ⟨hmem, hany⟩, h1, h2⟩
  · simp [get_many, decodeRows]

/-- C3 witness: a one-row store queried with one matching and one absent
key. -/
theorem C3_get_many_witness :
    (∀ r ∈ ([⟨"a", 2, some (.utf8 "v")⟩] : Store), ∃ w, decodeRow r = .ok w) ∧
    ((∃ d, get_many [⟨"a", 2, some (.utf8 "v")⟩] ["a", "b"] = .ok d ∧
      ∀ p, p ∈ d ↔ ∃ r ∈ ([⟨"a", 2, some (.utf8 "v")⟩] : Store),
        (["a", "b"].any fun k => keyEq r.k k) = true
          ∧ r.k = p.1 ∧ decodeRow r = .ok p.2) ∧
    get_many [⟨"a", 2, some (.utf8 "v")⟩] [] = .ok []) := by
  have h : ∀ r ∈ ([⟨"a", 2, some (.utf8 "v")⟩] : Store), ∃ w, decodeRow r = .ok w := by
    intro r hr
    rw [List.mem_singleton] at hr
    subst hr
    exact ⟨.str "v", rfl⟩
  exact ⟨h, C3_get_many _ _ h⟩

/-- C4: `remove_many` is a total operation (it never fails): missing keys
are silently ignored, the empty sequence leaves the store unchanged, and
afterwards none of the given keys is present in the store. -/
theorem C4_remove_many (st : Store) (keys : List String) :
    (∀ k ∈ keys, lookupRow (remove_many st keys) k = Option.none) ∧
    remove_many st [] = st := by
  constructor
  · intro k hk
    unfold lookupRow remove_many
    rw [List.find?_eq_none]
    intro r hr
    have h2 := (List.mem_filter.mp hr).2
    simp only [Bool.not_eq_true', List.any_eq_false] at h2
    simp [h2 k hk]
  · simp [remove_many]

/-- C4 witness: removing a present and an absent key. -/
theorem C4_remove_many_witness :
    lookupRow (remove_many [⟨"a", 2, some (.utf8 "v")⟩] ["a", "b"]) "a" = Option.none ∧
    remove_many ([] : Store) [] = [] :=
  ⟨(C4_remove_many _ ["a", "b"]).1 "a" (by decide), (C4_remove_many [] []).2⟩

/-- C5 counterexample: with `v1 = "x"` and `v2 = 2 ^ 53 + 1` (distinct
values), `set k v1; set k v2; get k` returns `2 ^ 53` — the stored
integer comes back through `float(data)` with its low bit rounded away —
which is not equal to `v2`, so the claim as stated fails on the code. -/
theorem C5_counterexample :
    Value.str "x" ≠ Value.int 9007199254740993 ∧
    get (set (set [] "k" (.str "x")) "k" (.int 9007199254740993)) "k" Option.none
      = .ok (.int 9007199254740992) ∧
    pyEq (.int 9007199254740992) (.int 9007199254740993) = false :=
  ⟨by decide, by decide, by decide⟩

/-- C5 (amended): for every key `k` and values `v1 ≠ v2`, where `v2` is
not an integer of magnitude beyond `2 ^ 53` (the acknowledged
precision-loss boundary), `set k v1; set k v2` leaves exactly one entry
for `k`, and a subsequent `get k` returns a value Python-`==`-equal to
`v2`. -/
theorem C5_overwrite (st : Store) (k : String) (v1 v2 : Value)
    (_h1 : v1 ≠ v2) (h2 : valueOK v2) :
    ((set (set st k v1) k v2).filter fun r => keyEq r.k k).length = 1 ∧
    ∃ w, get (set (set st k v1) k v2) k Option.none = .ok w ∧ pyEq w v2 = true := by
  refine ⟨set_filter_self _ k v2, ?_⟩
  obtain ⟨w, hw, hpy⟩ := unserialize_serialize h2
  have hl := lookupRow_set_self (set st k v1) k k v2 (keyEq_refl k)
  exact ⟨w, by simp [get, hl, decodeRow_set, hw], hpy⟩

/-- C5 witness: overwriting an integer with a string. -/
theorem C5_overwrite_witness :
    Value.int 1 ≠ Value.str "y" ∧ valueOK (Value.str "y") ∧
    (((set (set [] "k" (.int 1)) "k" (.str "y")).filter fun r => keyEq r.k "k").length = 1 ∧
     ∃ w, get (set (set [] "k" (.int 1)) "k" (.str "y")) "k" Option.none = .ok w ∧
       pyEq w (.str "y") = true) :=
  ⟨by decide, by decide, C5_overwrite [] "k" (.int 1) (.str "y") (by decide) (by decide)⟩

/-- C6: decoding a stored Number reinterprets the payload as a double
and narrows it to an integer exactly when it has no fractional part
(denominator 1), otherwise keeps it floating-point; in particular the
stored float `2.0` decodes to the integer `2`, and any stored value with
a fractional part decodes to a float. -/
theorem C6_number_decode :
    (∀ q : ℚ, _unserialize .NUMBER (some (.float q))
      = .ok (if q.den = 1 then .int q.num else .float q)) ∧
    _unserialize .NUMBER (some (.float (mkRat 2 1))) = .ok (.int 2) ∧
    ∀ q : ℚ, q.den ≠ 1 → _unserialize .NUMBER (some (.float q)) = .ok (.float q) := by
  refine ⟨fun q => rfl, by decide, fun q hq => ?_⟩
  simp [_unserialize, payloadToFloat, hq]

/-- C6 witness: the stored float `7/2` has a fractional part and decodes
to a float. -/
theorem C6_number_decode_witness :
    (mkRat 7 2).den ≠ 1 ∧
    _unserialize .NUMBER (some (.float (mkRat 7 2))) = .ok (.float (mkRat 7 2)) :=
  ⟨by decide, C6_number_decode.2.2 (mkRat 7 2) (by decide)⟩

/-- C7 counterexample: `set "Foo" v; get "foo"` does not return `v` for
the integer `v = 2 ^ 53 + 1`, since the Number decode path rounds it, so
the claim's "for every value v" fails on the code (independently of key
case). -/
theorem C7_counterexample :
    get (set [] "Foo" (.int 9007199254740993)) "foo" Option.none
      = .ok (.int 9007199254740992) ∧
    pyEq (.int 9007199254740992) (.int 9007199254740993) = false :=
  ⟨by decide, by decide⟩

/-- C7 (amended): exact-key operations compare keys case-insensitively:
for NOCASE-equal keys `k1, k2`, lookup resolves both to the same entry;
after
`set k1 v` (for any `v` that is not an integer beyond the `2 ^ 53`
precision-loss boundary) `get k2` returns a value Python-`==`-equal to
`v`; and `remove k2` succeeds on the entry written under `k1`. -/
theorem C7_case_insensitive (st : Store) (v : Value) (k1 k2 : String)
    (hk : keyEq k1 k2 = true) (hv : valueOK v) :
    lookupRow st k1 = lookupRow st k2 ∧
    (∃ w, get (set st k1 v) k2 Option.none = .ok w ∧ pyEq w v = true) ∧
    ∃ st', remove (set st k1 v) k2 = .ok st' := by
  refine ⟨lookupRow_congr hk st, ?_, ?_⟩
  · obtain ⟨w, hw, hpy⟩ := unserialize_serialize hv
    have hl := lookupRow_set_self st k1 k2 v hk
    exact ⟨w, by simp [get, hl, decodeRow_set, hw], hpy⟩
  · have hlen : ((set st k1 v).filter fun r => !(keyEq r.k k2)).length
        < (set st k1 v).length := by
      unfold set
      rw [List.filter_append]
      have h0 : List.filter (fun r => !(keyEq r.k k2))
          ([⟨k1, (_serialize v).1.code, (_serialize v).2⟩] : Store) = [] := by
        simp [hk]
      rw [h0]
      rw [List.append_nil, List.length_append]
      exact Nat.lt_succ_of_le (List.length_filter_le _ _)
    refine ⟨(set st k1 v).filter fun r => !(keyEq r.k k2), ?_⟩
    unfold remove
    rw [if_neg (Nat.ne_of_lt hlen)]

/-- C7 witness: `set "Foo" 1` then `get "foo"` and `remove "foo"`. -/
theorem C7_case_insensitive_witness :
    keyEq "Foo" "foo" = true ∧ valueOK (Value.int 1) ∧
    (lookupRow ([] : Store) "Foo" = lookupRow [] "foo" ∧
     (∃ w, get (set [] "Foo" (.int 1)) "foo" Option.none = .ok w ∧
       pyEq w (.int 1) = true) ∧
     ∃ st', remove (set [] "Foo" (.int 1)) "foo" = .ok st') :=
  ⟨by decide, by decide,
    C7_case_insensitive [] (.int 1) "Foo" "foo" (by decide) (by decide)⟩

/-- C8: for every stored row whose type tag lies outside 1–6, decoding
it via `get` on that key fails with the `ValueError` raised by
`_DType(row[0])` rather than returning a silently coerced value. -/
theorem C8_invalid_tag (st : Store) (key : String) (d : Option Value) (r : Row)
    (h1 : lookupRow st key = some r) (h2 : r.t < 1 ∨ 6 < r.t) :
    get st key d = .error .valueError := by
  simp [get, h1, decodeRow, ofCode_none h2]

/-- C8 witness: a row stored with tag 7. -/
theorem C8_invalid_tag_witness :
    lookupRow [⟨"a", 7, Option.none⟩] "a" = some ⟨"a", 7, Option.none⟩ ∧
    ((⟨"a", 7, Option.none⟩ : Row).t < 1 ∨ 6 < (⟨"a", 7, Option.none⟩ : Row).t) ∧
    get [⟨"a", 7, Option.none⟩] "a" Option.none = .error .valueError :=
  ⟨by decide, by decide,
    C8_invalid_tag [⟨"a", 7, Option.none⟩] "a" Option.none ⟨"a", 7, Option.none⟩
      (by decide) (by decide)⟩

/-- C9: the encoder only ever produces type tags in the range 1–6
(`NONE = 1` through `PICKLE = 6`), so every row written through
`_serialize` satisfies the table's `CHECK (t BETWEEN 1 AND 6)`
constraint. -/
theorem C9_tag_range (v : Value) :
    1 ≤ (_serialize v).1.code ∧ (_serialize v).1.code ≤ 6 := by
  cases v <;> simp [_serialize, DType.code]

/-- C10: the keys of the mapping returned by `get_many` are the keys as
stored in the table: every returned entry carries the key of a stored
row; concretely, requesting `"foo"` against a row stored under `"Foo"`
succeeds (NOCASE match) but the result is keyed by `"Foo"`, and the
requested spelling `"foo"` itself is absent from the result. -/
theorem C10_stored_case :
    (∀ (st : Store) (keys : List String) (d : List (String × Value)) (p : String × Value),
      get_many st keys = .ok d → p ∈ d → ∃ r ∈ st, r.k = p.1) ∧
    (get_many [⟨"Foo", 2, some (.utf8 "x")⟩] ["foo"] = .ok [("Foo", Value.str "x")] ∧
     ¬ ∃ w, ("foo", w) ∈ [("Foo", Value.str "x")]) := by
  refine ⟨?_, by decide, ?_⟩
  · intro st keys d p hok hp
    obtain ⟨r, hr, h1, _⟩ := decodeRows_mem hok p hp
    exact ⟨r, (List.mem_filter.mp hr).1, h1⟩
  · rintro ⟨w, hw⟩
    rw [List.mem_singleton] at hw
    have h1 : "foo" = "Foo" := congrArg Prod.fst hw
    exact absurd h1 (by decide)

/-- C10 witness: the general part applied at the concrete store. -/
theorem C10_stored_case_witness :
    get_many [⟨"Foo", 2, some (.utf8 "x")⟩] ["foo"] = .ok [("Foo", Value.str "x")] ∧
    ∃ r ∈ ([⟨"Foo", 2, some (.utf8 "x")⟩] : Store), r.k = "Foo" :=
  ⟨by decide,
    C10_stored_case.1 [⟨"Foo", 2, some (.utf8 "x")⟩] ["foo"] [("Foo", Value.str "x")]
      ("Foo", Value.str "x") (by decide) (by decide)⟩

end TinyKV
